import Mathlib

/-!
Verification development for the filesystem reconciler in
`src/app/bg/filesystem/index.js`.

The archive engine's namespace is modelled as a hierarchical store mapping
paths (segment lists, joined with `/` in the source) to nodes.  The source's
`stat` helper catches every lookup error and returns `null`, so probing is a
total lookup.  External collaborators (the address resolver
`dat.archives.fromURLToKey`, the profile store, the user directory, the
engine's fallible `readdir`/`unmount`) are passed in as explicit inputs.
-/

/-- Kind of a filesystem node: a regular file, a directory, or a mount that
carries the resolved key of the archive it is bound to. -/
inductive Node where
  | plain
  | directory
  | mount (key : String)
deriving DecidableEq, Repr

/-- A path in the root archive, as the list of its segments
(`joinPath` in the source concatenates segments with `/`). -/
abbrev FsPath := List String

/-- The root archive's namespace: each path holds at most one node. -/
abbrev Fs := FsPath → Option Node

/-- `rootArchive.pda.mkdir` / `rootArchive.pda.mount`: place a node at a path. -/
def Fs.setNode (fs : Fs) (p : FsPath) (n : Node) : Fs :=
  fun q => if q = p then some n else fs q

/-- `rootArchive.pda.unmount`: remove the node at a path. -/
def Fs.removeNode (fs : Fs) (p : FsPath) : Fs :=
  fun q => if q = p then none else fs q

/-- The module's `stat` helper: `try { return await rootArchive.pda.stat(path) }
catch (e) { return null }` — a total probe normalizing lookup failure to
absence. -/
def stat (fs : Fs) (path : FsPath) : Option Node :=
  fs path

/-- A primitive operation issued against the archive engine. -/
inductive Op where
  | mkdir (p : FsPath)
  | mount (p : FsPath) (key : String)
  | unmount (p : FsPath)
deriving DecidableEq, Repr

/-- A user record from the user directory (`users.setup()`). -/
structure User where
  label : String
  url : String
  isDefault : Bool
  isTemporary : Bool
deriving DecidableEq, Repr

/-- Modelled from the spec: the `PATHS` constants imported from
`../../lib/const`, which is not under `src/`.  The spec fixes an application
data root with namespaced subpaths, a library root, a settings root, an owners
root with per-label entries `owners/<label>`, plus one default-alias path that
is a fixed path distinct from the owners root (the stale sweep below the
owners root must not remove it, and `setup`'s convergence binds it). -/
def PATHS.DATA : FsPath := [".data"]

/-- Modelled from the spec: the namespaced data subpath `PATHS.DATA_NS(ns)`. -/
def PATHS.DATA_NS (ns : String) : FsPath := [".data", ns]

/-- Modelled from the spec: the library root `PATHS.LIBRARY`. -/
def PATHS.LIBRARY : FsPath := ["library"]

/-- Modelled from the spec: the settings root `PATHS.SETTINGS`. -/
def PATHS.SETTINGS : FsPath := ["settings"]

/-- Modelled from the spec: the owners root `PATHS.USERS`. -/
def PATHS.USERS : FsPath := ["users"]

/-- Modelled from the spec: the per-owner path `PATHS.USER(label)`,
`owners/<label>` directly under the owners root. -/
def PATHS.USER (label : String) : FsPath := ["users", label]

/-- Modelled from the spec: the default-owner alias path `PATHS.DEFAULT_USER`,
a fixed path outside the owners root. -/
def PATHS.DEFAULT_USER : FsPath := ["public"]

/-- `ensureDir(path)`: probe; if absent, `mkdir`; if present but not a
directory, log a conflict and leave the node untouched; if a directory,
do nothing.  All failures are caught inside the function, so it is total.
Returns the new state and the primitive operations issued. -/
def ensureDir (fs : Fs) (path : FsPath) : Fs × List Op :=
  match stat fs path with
  | none => (Fs.setNode fs path Node.directory, [Op.mkdir path])
  | some Node.directory => (fs, [])
  | some _ => (fs, [])

/-- `ensureMount(path, url)`: resolve the url to a key
(`dat.archives.fromURLToKey(url, true)`, modelled by `resolve`; a resolution
failure is caught and aborts only this call).  Then: absent → mount;
mount with a different key → unmount then mount; mount with the same key →
no-op; any other kind → log a conflict and leave the node untouched. -/
def ensureMount (resolve : String → Option String) (fs : Fs) (path : FsPath)
    (url : String) : Fs × List Op :=
  match resolve url with
  | none => (fs, [])
  | some key =>
    match stat fs path with
    | none => (Fs.setNode fs path (Node.mount key), [Op.mount path key])
    | some (Node.mount k) =>
      if k ≠ key then
        (Fs.setNode (Fs.removeNode fs path) path (Node.mount key),
          [Op.unmount path, Op.mount path key])
      else (fs, [])
    | some _ => (fs, [])

/-- `ensureUnmount(path)`: probe; if the node is a mount, unmount it;
otherwise do nothing. -/
def ensureUnmount (fs : Fs) (path : FsPath) : Fs × List Op :=
  match stat fs path with
  | some (Node.mount _) => (Fs.removeNode fs path, [Op.unmount path])
  | _ => (fs, [])

/-- `addUser(user)`: mount the labeled path, and additionally the default
alias when the user is flagged default. -/
def addUser (resolve : String → Option String) (fs : Fs) (u : User) : Fs :=
  let fs1 := (ensureMount resolve fs (PATHS.USER u.label) u.url).1
  if u.isDefault then (ensureMount resolve fs1 PATHS.DEFAULT_USER u.url).1
  else fs1

/-- `removeUser(user)`: `ensureUnmount(PATHS.USER(user.label))`. -/
def removeUser (fs : Fs) (u : User) : Fs × List Op :=
  ensureUnmount fs (PATHS.USER u.label)

/-- The user-mount loop of `setup` (lines 76–81): for each user, if the user
is flagged default, `ensureMount(PATHS.DEFAULT_USER, user.url)`; then, if the
user is not temporary, `ensureMount(PATHS.USER(user.label), user.url)`.
Besides the resulting state, the list of `(path, url)` arguments passed to
`ensureMount` is returned. -/
def usersMountPhase (resolve : String → Option String) (fs : Fs) :
    List User → Fs × List (FsPath × String)
  | [] => (fs, [])
  | u :: rest =>
    let fs1 := if u.isDefault then (ensureMount resolve fs PATHS.DEFAULT_USER u.url).1 else fs
    let defCalls : List (FsPath × String) :=
      if u.isDefault then [(PATHS.DEFAULT_USER, u.url)] else []
    let fs2 := if u.isTemporary then fs1
               else (ensureMount resolve fs1 (PATHS.USER u.label) u.url).1
    let labCalls : List (FsPath × String) :=
      if u.isTemporary then [] else [(PATHS.USER u.label, u.url)]
    let restResult := usersMountPhase resolve fs2 rest
    (restResult.1, defCalls ++ labCalls ++ restResult.2)

/-- One iteration of the stale-mount sweep (lines 85–94): if the entry's name
matches no user's label in the current user list, probe `PATHS.USER(name)`;
if it is a mount, unmount it directly (`rootArchive.pda.unmount`). -/
def sweepStep (userList : List User) (fs : Fs) (filename : String) : Fs :=
  if (userList.find? (fun u => u.label == filename)).isNone then
    match stat fs (PATHS.USER filename) with
    | some (Node.mount _) => Fs.removeNode fs (PATHS.USER filename)
    | _ => fs
  else fs

/-- The stale-mount sweep: iterate over the filenames that
`rootArchive.pda.readdir(PATHS.USERS)` returned, applying `sweepStep`. -/
def sweepPhase (userList : List User) (fs : Fs) : List String → Fs
  | [] => fs
  | filename :: rest => sweepPhase userList (sweepStep userList fs filename) rest

/-- The fixed-directory phase of `setup` (lines 68–75). -/
def dirsPhase (fs : Fs) : Fs :=
  let fs := (ensureDir fs PATHS.DATA).1
  let fs := (ensureDir fs (PATHS.DATA_NS "unwalled.garden")).1
  let fs := (ensureDir fs (PATHS.DATA_NS "unwalled.garden" ++ ["bookmarks"])).1
  let fs := (ensureDir fs PATHS.LIBRARY).1
  let fs := (ensureDir fs PATHS.SETTINGS).1
  (ensureDir fs PATHS.USERS).1

/-- The root-structure enforcement of `setup` (the body of its `try` block,
without engine failures): fixed directories, then the user-mount loop, then
the stale-mount sweep over the filenames the engine listed under the owners
root at that point. -/
def setupStructure (resolve : String → Option String) (userList : List User)
    (usersFilenames : List String) (fs : Fs) : Fs :=
  sweepPhase userList (usersMountPhase resolve (dirsPhase fs) userList).1 usersFilenames

/-- The browsing profile row (`SELECT * FROM profiles WHERE id = 0`):
`url` is the root archive's address, absent on first run. -/
structure Profile where
  url : Option String

/-- Failure injection for the two engine calls inside `setup`'s `try` block
that are not wrapped by an inner catch: the `readdir` of the owners root, and
the direct `unmount` of a stale mount.  (`ensureDir`, `ensureMount` and
`ensureUnmount` catch all their own errors, so none of their failures can
escape.) -/
structure SweepOracle where
  readdirResult : Except String (List String)
  unmountFails : FsPath → Bool

/-- The stale-mount sweep with fallible direct `unmount` calls. -/
def sweepGoE (unmountFails : FsPath → Bool) (userList : List User) :
    Fs → List String → Except String Fs
  | fs, [] => Except.ok fs
  | fs, filename :: rest =>
    if (userList.find? (fun u => u.label == filename)).isNone then
      match stat fs (PATHS.USER filename) with
      | some (Node.mount _) =>
        if unmountFails (PATHS.USER filename) then Except.error "unmount failed"
        else sweepGoE unmountFails userList (Fs.removeNode fs (PATHS.USER filename)) rest
      | _ => sweepGoE unmountFails userList fs rest
    else sweepGoE unmountFails userList fs rest

/-- `setup()` (lines 46–101).  Before the `try` block: load the profile row;
if it has no url, create a new root archive and persist its url; load the
root archive; run `users.setup()`.  Each of these external calls may fail and
is NOT guarded.  The `try` block enforces the root structure; any error
raised inside it (readdir of the owners root, a direct unmount in the sweep)
is caught, logged and swallowed.  The caller only observes completion, so the
result is `Except String Unit`. -/
def setup (dbGet : Except String Profile) (createNewRootArchive : Except String String)
    (dbRun : Except String Unit) (getOrLoadArchive : String → Except String Unit)
    (usersSetup : Except String (List User)) (oracle : SweepOracle)
    (resolve : String → Option String) (fs : Fs) : Except String Unit :=
  match dbGet with
  | Except.error e => Except.error e
  | Except.ok browsingProfile =>
    match (match browsingProfile.url with
           | none =>
             match createNewRootArchive with
             | Except.error e => Except.error e
             | Except.ok archiveUrl =>
               match dbRun with
               | Except.error e => Except.error e
               | Except.ok _ => Except.ok archiveUrl
           | some u => Except.ok u) with
    | Except.error e => Except.error e
    | Except.ok url =>
      match getOrLoadArchive url with
      | Except.error e => Except.error e
      | Except.ok _ =>
        match usersSetup with
        | Except.error e => Except.error e
        | Except.ok userList =>
          match (match oracle.readdirResult with
                 | Except.error e => Except.error e
                 | Except.ok filenames =>
                   sweepGoE oracle.unmountFails userList
                     ((usersMountPhase resolve (dirsPhase fs) userList).1) filenames) with
          | Except.ok _ => Except.ok ()
          | Except.error _ => Except.ok ()

/-- Modelled from the spec: `String.prototype.trim()` of the title —
leading and trailing whitespace removed. -/
def trimJS (s : String) : String :=
  String.mk (((s.data.dropWhile Char.isWhitespace).reverse.dropWhile
    Char.isWhitespace).reverse)

/-- Modelled from the spec: the external `slugify` npm dependency followed by
`toLowerCase()` — the title is normalized to a lowercase path-safe slug:
letters and digits are kept lowercased, spaces become `-`, `-` is kept, and
every other character is dropped. -/
def slugifyLower (s : String) : String :=
  String.mk (s.data.filterMap (fun c =>
    if c.isAlphanum then some c.toLower
    else if c = ' ' ∨ c = '-' then some '-'
    else none))

/-- `slugify((title || '').trim() || 'untitled').toLowerCase()`: an empty or
whitespace-only title falls back to the literal `untitled`. -/
def baseName (title : String) : String :=
  slugifyLower (if trimJS title = "" then "untitled" else trimJS title)

/-- The candidate at counter `i` in `getAvailableName`:
`(i === 1) ? basename : basename-i`. -/
def candidateName (basename : String) (i : Nat) : String :=
  if i = 1 then basename else basename ++ "-" ++ toString i

/-- The candidate loop of `getAvailableName`, with the remaining number of
iterations as explicit fuel: probe the candidate at counter `i`; return it
if absent, else continue with `i + 1`. -/
def availLoop (st : Fs) (containingPath : FsPath) (basename : String) :
    Nat → Nat → Option String
  | 0, _ => none
  | fuel + 1, i =>
    match st (containingPath ++ [candidateName basename i]) with
    | some _ => availLoop st containingPath basename fuel (i + 1)
    | none => some (candidateName basename i)

/-- `getAvailableName(containingPath, title)` (lines 193–202): the loop
`for (let i = 1; i < 1e9; i++)` probes candidates at counters 1 through
999999999; if every candidate is occupied an error is thrown. -/
def getAvailableName (st : Fs) (containingPath : FsPath) (title : String) :
    Except String String :=
  match availLoop st containingPath (baseName title) 999999999 1 with
  | some name => Except.ok name
  | none => Except.error ("Unable to find an available name for " ++ title)

/-- `addToLibrary(url, title)` (lines 125–128): allocate a name under the
library root (an allocation error is not caught and propagates), then
`ensureMount(joinPath(PATHS.LIBRARY, name), url)`.  The source returns
`Promise<void>`, so the payload of a successful run is `Unit`. -/
def addToLibrary (resolve : String → Option String) (fs : Fs)
    (url title : String) : Except String (Fs × Unit) :=
  match getAvailableName fs PATHS.LIBRARY title with
  | Except.error e => Except.error e
  | Except.ok name =>
    Except.ok ((ensureMount resolve fs (PATHS.LIBRARY ++ [name]) url).1, ())

/-- A probed node that `ensureMount` can converge to the desired mount:
absent, or already a mount. -/
def isMountableB : Option Node → Bool
  | none => true
  | some (Node.mount _) => true
  | some _ => false

/-- `st.isDirectory()` of a probed node. -/
def Node.isDirectoryB : Node → Bool
  | Node.directory => true
  | _ => false

/-- `st.mount` truthiness of a probed node. -/
def Node.isMountB : Node → Bool
  | Node.mount _ => true
  | _ => false

/-- Fixture: an empty root archive. -/
def fsEmpty : Fs := fun _ => none

/-- Fixture: a store in which every path is occupied by a plain file. -/
def fsAllPlain : Fs := fun _ => some Node.plain

/-- Fixture: a resolver mapping every address to the key `ka`. -/
def resolveKA : String → Option String := fun _ => some "ka"

/-- Fixture: a library whose `my-post` entry is taken. -/
def fsLib1 : Fs := fun p =>
  if p = ["library", "my-post"] then some (Node.mount "k1") else none

/-- Fixture: a library whose `my-post` and `my-post-2` entries are taken. -/
def fsLib2 : Fs := fun p =>
  if p = ["library", "my-post"] then some (Node.mount "k1")
  else if p = ["library", "my-post-2"] then some (Node.mount "k2")
  else none

/-- Fixture: a plain file at `x`. -/
def fsPlainX : Fs := fun p => if p = ["x"] then some Node.plain else none

/-- Fixture: a mount bound to key `a` at `x`. -/
def fsMountA : Fs := fun p => if p = ["x"] then some (Node.mount "a") else none

/-- Fixture: a mount at the owners-root entry `tmp`. -/
def fsTmpMount : Fs := fun p =>
  if p = ["users", "tmp"] then some (Node.mount "k") else none

/-- Fixture: a mount at the owners-root entry `ghost`. -/
def fsGhostMount : Fs := fun p =>
  if p = ["users", "ghost"] then some (Node.mount "kg") else none

/-- Fixture: mounts at `users/alice` and at the default alias. -/
def fsPub : Fs := fun p =>
  if p = ["users", "alice"] then some (Node.mount "ka")
  else if p = ["public"] then some (Node.mount "ka")
  else none

/-- Fixture: a default, non-temporary user. -/
def uAlice : User := ⟨"alice", "dat://a", true, false⟩

/-- Fixture: a temporary user that is flagged default. -/
def uTmpDefault : User := ⟨"t", "dat://t", true, true⟩

/-- Fixture: a temporary, non-default user. -/
def uTmp : User := ⟨"tmp", "dat://t", false, true⟩

/-- Fixture: a one-user directory. -/
def userListC : List User := [uAlice]

-- Helper lemmas

theorem path_user_inj {a b : String} (h : PATHS.USER a = PATHS.USER b) : a = b := by
  simp [PATHS.USER] at h; exact h

theorem default_ne_user (l : String) : PATHS.DEFAULT_USER ≠ PATHS.USER l := by
  simp [PATHS.DEFAULT_USER, PATHS.USER]

theorem user_ne_default (l : String) : PATHS.USER l ≠ PATHS.DEFAULT_USER :=
  fun h => default_ne_user l h.symm

theorem ensureDir_frame (fs : Fs) (p q : FsPath) (h : q ≠ p) :
    (ensureDir fs p).1 q = fs q := by
  unfold ensureDir
  cases hst : stat fs p with
  | none => simp [Fs.setNode, h]
  | some n => cases n <;> simp

theorem ensureMount_frame (resolve : String → Option String) (fs : Fs)
    (p q : FsPath) (url : String) (h : q ≠ p) :
    (ensureMount resolve fs p url).1 q = fs q := by
  unfold ensureMount
  cases hr : resolve url with
  | none => rfl
  | some key =>
    cases hst : stat fs p with
    | none => simp [Fs.setNode, h]
    | some n =>
      cases n with
      | mount k =>
        by_cases hk : k = key
        · simp [hk]
        · simp [hk, Fs.setNode, Fs.removeNode, h]
      | plain => simp
      | directory => simp

theorem ensureMount_sets (resolve : String → Option String) (fs : Fs)
    (p : FsPath) (url key : String) (hk : resolve url = some key)
    (hc : isMountableB (stat fs p) = true) :
    (ensureMount resolve fs p url).1 p = some (Node.mount key) := by
  unfold ensureMount
  rw [hk]
  cases hst : stat fs p with
  | none => simp [Fs.setNode]
  | some n =>
    cases n with
    | mount k =>
      by_cases hkk : k = key
      · simpa [hkk, stat] using hst
      · simp [hkk, Fs.setNode]
    | plain => rw [hst] at hc; simp [isMountableB] at hc
    | directory => rw [hst] at hc; simp [isMountableB] at hc

theorem dirsPhase_frame (fs : Fs) (q : FsPath)
    (h1 : q ≠ PATHS.DATA) (h2 : q ≠ PATHS.DATA_NS "unwalled.garden")
    (h3 : q ≠ PATHS.DATA_NS "unwalled.garden" ++ ["bookmarks"])
    (h4 : q ≠ PATHS.LIBRARY) (h5 : q ≠ PATHS.SETTINGS) (h6 : q ≠ PATHS.USERS) :
    dirsPhase fs q = fs q := by
  unfold dirsPhase
  rw [ensureDir_frame _ _ _ h6, ensureDir_frame _ _ _ h5, ensureDir_frame _ _ _ h4,
    ensureDir_frame _ _ _ h3, ensureDir_frame _ _ _ h2, ensureDir_frame _ _ _ h1]

theorem dirsPhase_user_frame (fs : Fs) (l : String) :
    dirsPhase fs (PATHS.USER l) = fs (PATHS.USER l) := by
  apply dirsPhase_frame <;> simp [PATHS.USER, PATHS.DATA, PATHS.DATA_NS,
    PATHS.LIBRARY, PATHS.SETTINGS, PATHS.USERS]

theorem dirsPhase_default_frame (fs : Fs) :
    dirsPhase fs PATHS.DEFAULT_USER = fs PATHS.DEFAULT_USER := by
  apply dirsPhase_frame <;> simp [PATHS.DEFAULT_USER, PATHS.DATA, PATHS.DATA_NS,
    PATHS.LIBRARY, PATHS.SETTINGS, PATHS.USERS]

theorem usersMountPhase_frame_user (resolve : String → Option String) (x : String) :
    ∀ (l : List User) (fs : Fs), (∀ v ∈ l, v.label ≠ x) →
      (usersMountPhase resolve fs l).1 (PATHS.USER x) = fs (PATHS.USER x) := by
  intro l
  induction l with
  | nil => intro fs _; rfl
  | cons v rest ih =>
    intro fs hx
    have hvx : v.label ≠ x := hx v (List.mem_cons_self v rest)
    have hux : PATHS.USER x ≠ PATHS.USER v.label :=
      fun h => hvx (path_user_inj h).symm
    have hud : PATHS.USER x ≠ PATHS.DEFAULT_USER := user_ne_default x
    simp only [usersMountPhase]
    rw [ih _ (fun w hw => hx w (List.mem_cons_of_mem _ hw))]
    by_cases hd : v.isDefault <;> by_cases ht : v.isTemporary <;>
      simp [hd, ht, ensureMount_frame _ _ _ _ _ hux, ensureMount_frame _ _ _ _ _ hud]

theorem usersMountPhase_frame_default (resolve : String → Option String) :
    ∀ (l : List User) (fs : Fs), (∀ v ∈ l, v.isDefault = false) →
      (usersMountPhase resolve fs l).1 PATHS.DEFAULT_USER = fs PATHS.DEFAULT_USER := by
  intro l
  induction l with
  | nil => intro fs _; rfl
  | cons v rest ih =>
    intro fs hnd
    have hvd : v.isDefault = false := hnd v (List.mem_cons_self v rest)
    have hdu : PATHS.DEFAULT_USER ≠ PATHS.USER v.label := default_ne_user v.label
    simp only [usersMountPhase]
    rw [ih _ (fun w hw => hnd w (List.mem_cons_of_mem _ hw))]
    by_cases ht : v.isTemporary <;>
      simp [hvd, ht, ensureMount_frame _ _ _ _ _ hdu]

theorem usersMountPhase_sets_label (resolve : String → Option String) :
    ∀ (l : List User) (fs : Fs) (u : User) (k : String),
      l.Pairwise (fun a b => a.label ≠ b.label) → u ∈ l →
      u.isTemporary = false → resolve u.url = some k →
      isMountableB (fs (PATHS.USER u.label)) = true →
      (usersMountPhase resolve fs l).1 (PATHS.USER u.label) = some (Node.mount k) := by
  intro l
  induction l with
  | nil => intro fs u k _ hu; exact absurd hu (List.not_mem_nil u)
  | cons v rest ih =>
    intro fs u k hl hu ht hk hc
    rcases List.mem_cons.mp hu with rfl | hmem
    · -- u is processed first, later users leave its path alone
      simp only [usersMountPhase]
      have hud : PATHS.USER u.label ≠ PATHS.DEFAULT_USER := user_ne_default u.label
      rw [usersMountPhase_frame_user resolve u.label rest _
        (fun w hw => ((List.pairwise_cons.mp hl).1 w hw).symm)]
      have hc1 : ∀ fs1 : Fs, fs1 (PATHS.USER u.label) = fs (PATHS.USER u.label) →
          (if u.isTemporary then fs1
           else (ensureMount resolve fs1 (PATHS.USER u.label) u.url).1)
            (PATHS.USER u.label) = some (Node.mount k) := by
        intro fs1 heq
        rw [ht]
        simp only [Bool.false_eq_true, if_false]
        exact ensureMount_sets resolve fs1 _ _ _ hk (by rw [stat, heq]; exact hc)
      by_cases hd : u.isDefault
      · simp only [hd, if_true]
        exact hc1 _ (ensureMount_frame _ _ _ _ _ hud)
      · simp only [hd, if_false]
        exact hc1 _ rfl
    · -- u is processed inside rest; v's step leaves u's path alone
      have hvu : v.label ≠ u.label := (List.pairwise_cons.mp hl).1 u hmem
      have hux : PATHS.USER u.label ≠ PATHS.USER v.label :=
        fun h => hvu (path_user_inj h).symm
      have hud : PATHS.USER u.label ≠ PATHS.DEFAULT_USER := user_ne_default u.label
      simp only [usersMountPhase]
      have hfs2 : ∀ fs2 : Fs, fs2 (PATHS.USER u.label) = fs (PATHS.USER u.label) →
          (usersMountPhase resolve fs2 rest).1 (PATHS.USER u.label) = some (Node.mount k) := by
        intro fs2 heq
        exact ih fs2 u k (List.pairwise_cons.mp hl).2 hmem ht hk (by rw [heq]; exact hc)
      by_cases hd : v.isDefault <;> by_cases htv : v.isTemporary <;>
        simp only [hd, htv, if_true, if_false] <;>
        apply hfs2 <;>
        simp [ensureMount_frame _ _ _ _ _ hux, ensureMount_frame _ _ _ _ _ hud]

theorem usersMountPhase_sets_default (resolve : String → Option String) :
    ∀ (l : List User) (fs : Fs) (u : User) (k : String),
      l.Pairwise (fun a b => a.label ≠ b.label) →
      (∀ a ∈ l, ∀ b ∈ l, a.isDefault = true → b.isDefault = true → a = b) →
      u ∈ l → u.isDefault = true → resolve u.url = some k →
      isMountableB (fs PATHS.DEFAULT_USER) = true →
      (usersMountPhase resolve fs l).1 PATHS.DEFAULT_USER = some (Node.mount k) := by
  intro l
  induction l with
  | nil => intro fs u k _ _ hu; exact absurd hu (List.not_mem_nil u)
  | cons v rest ih =>
    intro fs u k hl huniq hu hd hk hc
    have hdu : PATHS.DEFAULT_USER ≠ PATHS.USER v.label := default_ne_user v.label
    rcases List.mem_cons.mp hu with rfl | hmem
    · -- u is the head: its step mounts the alias, the rest leaves it alone
      simp only [usersMountPhase]
      have hrest : ∀ w ∈ rest, w.isDefault = false := by
        intro w hw
        by_contra hwd
        have hwd' : w.isDefault = true := by
          cases hwdv : w.isDefault with
          | false => exact absurd hwdv hwd
          | true => rfl
        have : w = u := huniq w (List.mem_cons_of_mem _ hw) u (List.mem_cons_self u rest) hwd' hd
        exact ((List.pairwise_cons.mp hl).1 w hw) (by rw [this])
      rw [usersMountPhase_frame_default resolve rest _ hrest]
      have hset : (ensureMount resolve fs PATHS.DEFAULT_USER u.url).1 PATHS.DEFAULT_USER
          = some (Node.mount k) :=
        ensureMount_sets resolve fs _ _ _ hk hc
      by_cases ht : u.isTemporary <;>
        simp [hd, ht, hset, ensureMount_frame _ _ _ _ _ hdu]
    · -- u lies in rest: the head is not default, its step leaves the alias alone
      have hvu : v.label ≠ u.label := (List.pairwise_cons.mp hl).1 u hmem
      have hvd : v.isDefault = false := by
        cases hvdv : v.isDefault with
        | false => rfl
        | true =>
          have : v = u := huniq v (List.mem_cons_self v rest) u (List.mem_cons_of_mem _ hmem) hvdv hd
          exact absurd (by rw [this]) hvu
      simp only [usersMountPhase]
      have hfs2 : ∀ fs2 : Fs, fs2 PATHS.DEFAULT_USER = fs PATHS.DEFAULT_USER →
          (usersMountPhase resolve fs2 rest).1 PATHS.DEFAULT_USER = some (Node.mount k) := by
        intro fs2 heq
        refine ih fs2 u k (List.pairwise_cons.mp hl).2 ?_ hmem hd hk (by rw [heq]; exact hc)
        intro a ha b hb hda hdb
        exact huniq a (List.mem_cons_of_mem _ ha) b (List.mem_cons_of_mem _ hb) hda hdb
      by_cases ht : v.isTemporary <;>
        simp only [hvd, ht, if_true, if_false] <;>
        apply hfs2 <;>
        simp [ensureMount_frame _ _ _ _ _ hdu]

theorem find?_label_isSome (ul : List User) (u : User) (hu : u ∈ ul) :
    (ul.find? (fun v => v.label == u.label)).isSome = true := by
  rw [List.find?_isSome]
  exact ⟨u, hu, by simp⟩

theorem sweepPhase_frame (userList : List User) (p : FsPath)
    (hp : ∀ name, p = PATHS.USER name →
      (userList.find? (fun u => u.label == name)).isSome = true) :
    ∀ (fns : List String) (fs : Fs), sweepPhase userList fs fns p = fs p := by
  intro fns
  induction fns with
  | nil => intro fs; rfl
  | cons f rest ih =>
    intro fs
    show sweepPhase userList (sweepStep userList fs f) rest p = fs p
    rw [ih]
    unfold sweepStep
    by_cases hf : (userList.find? (fun u => u.label == f)).isNone = true
    · simp only [hf, if_true]
      cases hst : stat fs (PATHS.USER f) with
      | none => rfl
      | some n =>
        cases n with
        | mount k =>
          have hne : p ≠ PATHS.USER f := by
            intro h
            have h2 := hp f h
            rw [Option.isNone_iff_eq_none] at hf
            rw [hf] at h2
            simp at h2
          simp [Fs.removeNode, hne]
        | plain => rfl
        | directory => rfl
    · simp [hf]

theorem sweepStep_not_mount (userList : List User) (fs : Fs) (f : String)
    (p : FsPath) (h : ∀ k, fs p ≠ some (Node.mount k)) :
    ∀ k, sweepStep userList fs f p ≠ some (Node.mount k) := by
  intro k
  unfold sweepStep
  by_cases hf : (userList.find? (fun u => u.label == f)).isNone = true
  · simp only [hf, if_true]
    cases hst : stat fs (PATHS.USER f) with
    | none => exact h k
    | some n =>
      cases n with
      | mount k' =>
        by_cases hpf : p = PATHS.USER f
        · simp [Fs.removeNode, hpf]
        · simp only [Fs.removeNode, if_neg hpf]
          exact h k
      | plain => exact h k
      | directory => exact h k
  · simp only [hf, if_false]
    exact h k

theorem sweepPhase_not_mount (userList : List User) (p : FsPath) :
    ∀ (fns : List String) (fs : Fs), (∀ k, fs p ≠ some (Node.mount k)) →
      ∀ k, sweepPhase userList fs fns p ≠ some (Node.mount k) := by
  intro fns
  induction fns with
  | nil => intro fs h; exact h
  | cons f rest ih =>
    intro fs h
    exact ih (sweepStep userList fs f) (sweepStep_not_mount userList fs f p h)

theorem sweepPhase_processes (userList : List User) (name : String)
    (hfind : (userList.find? (fun u => u.label == name)).isNone = true) :
    ∀ (fns : List String) (fs : Fs), name ∈ fns →
      ∀ k, sweepPhase userList fs fns (PATHS.USER name) ≠ some (Node.mount k) := by
  intro fns
  induction fns with
  | nil => intro fs hmem; exact absurd hmem (List.not_mem_nil name)
  | cons f rest ih =>
    intro fs hmem
    rcases List.mem_cons.mp hmem with rfl | hmem'
    · -- the entry is processed now; afterwards its path holds no mount
      have hstep : ∀ k, sweepStep userList fs name (PATHS.USER name) ≠ some (Node.mount k) := by
        intro k
        unfold sweepStep
        simp only [hfind, if_true]
        cases hst : stat fs (PATHS.USER name) with
        | none => rw [stat] at hst; simp [hst]
        | some n =>
          cases n with
          | mount k' => simp [Fs.removeNode]
          | plain => rw [stat] at hst; simp [hst]
          | directory => rw [stat] at hst; simp [hst]
      intro k
      show sweepPhase userList (sweepStep userList fs name) rest (PATHS.USER name) ≠
        some (Node.mount k)
      exact sweepPhase_not_mount userList (PATHS.USER name) rest _ hstep k
    · exact ih (sweepStep userList fs f) hmem'

theorem availLoop_reaches (st : Fs) (c : FsPath) (b : String) :
    ∀ (fuel i j : Nat), i ≤ j → j < i + fuel →
      (∀ t, i ≤ t → t < j → (st (c ++ [candidateName b t])).isSome = true) →
      st (c ++ [candidateName b j]) = none →
      availLoop st c b fuel i = some (candidateName b j) := by
  intro fuel
  induction fuel with
  | zero => intro i j h1 h2 _ _; omega
  | succ fuel ih =>
    intro i j h1 h2 hocc habs
    by_cases hij : i = j
    · subst hij
      unfold availLoop
      rw [habs]
    · have hlt : i < j := lt_of_le_of_ne h1 hij
      have hi := hocc i le_rfl hlt
      obtain ⟨n, hn⟩ := Option.isSome_iff_exists.mp hi
      unfold availLoop
      rw [hn]
      exact ih (i + 1) j hlt (by omega) (fun t ht1 ht2 => hocc t (by omega) ht2) habs

theorem availLoop_exhaust (st : Fs) (c : FsPath) (b : String) :
    ∀ (fuel i : Nat),
      (∀ t, i ≤ t → t < i + fuel → (st (c ++ [candidateName b t])).isSome = true) →
      availLoop st c b fuel i = none := by
  intro fuel
  induction fuel with
  | zero => intro i _; rfl
  | succ fuel ih =>
    intro i h
    have hi := h i le_rfl (by omega)
    obtain ⟨n, hn⟩ := Option.isSome_iff_exists.mp hi
    unfold availLoop
    rw [hn]
    exact ih (i + 1) (fun t ht1 ht2 => h t (by omega) (by omega))

theorem availLoop_absent (st : Fs) (c : FsPath) (b : String) :
    ∀ (fuel i : Nat) (name : String),
      availLoop st c b fuel i = some name → st (c ++ [name]) = none := by
  intro fuel
  induction fuel with
  | zero => intro i name h; exact absurd h (by simp [availLoop])
  | succ fuel ih =>
    intro i name h
    unfold availLoop at h
    cases hst : st (c ++ [candidateName b i]) with
    | some n => rw [hst] at h; exact ih (i + 1) name h
    | none =>
      rw [hst] at h
      have hn : candidateName b i = name := Option.some.inj h
      rw [← hn]
      exact hst

theorem getAvailableName_first_absent (st : Fs) (c : FsPath) (title : String)
    (j : Nat) (h1 : 1 ≤ j) (h2 : j < 1000000000)
    (hocc : ∀ t, 1 ≤ t → t < j →
      (st (c ++ [candidateName (baseName title) t])).isSome = true)
    (habs : st (c ++ [candidateName (baseName title) j]) = none) :
    getAvailableName st c title = Except.ok (candidateName (baseName title) j) := by
  unfold getAvailableName
  rw [availLoop_reaches st c (baseName title) 999999999 1 j h1 (by omega) hocc habs]

theorem getAvailableName_ok_absent (st : Fs) (c : FsPath) (title name : String)
    (h : getAvailableName st c title = Except.ok name) : st (c ++ [name]) = none := by
  unfold getAvailableName at h
  cases hl : availLoop st c (baseName title) 999999999 1 with
  | some nm =>
    rw [hl] at h
    have : nm = name := by injection h
    rw [← this]
    exact availLoop_absent st c (baseName title) 999999999 1 nm hl
  | none =>
    rw [hl] at h
    exact absurd h (by simp)

theorem usersMountPhase_calls (resolve : String → Option String) :
    ∀ (l : List User) (fs : Fs),
      (usersMountPhase resolve fs l).2 =
        l.flatMap (fun u =>
          (if u.isDefault then [(PATHS.DEFAULT_USER, u.url)] else []) ++
          (if u.isTemporary then ([] : List (FsPath × String))
           else [(PATHS.USER u.label, u.url)])) := by
  intro l
  induction l with
  | nil => intro fs; rfl
  | cons v rest ih =>
    intro fs
    simp only [usersMountPhase, List.flatMap_cons]
    rw [ih]

-- Claim theorems

/-- C1: for every owner list, after `setup`'s root-structure enforcement every
non-temporary owner's path `owners/<label>` is a mount bound to (the key
resolved from) that owner's address, and a default-flagged owner's alias path
is likewise bound — given the spec's operating conditions: labels are unique
among owners, at most one owner is flagged default, each owner's address
resolves, and the target paths initially hold no node of a foreign kind. -/
theorem setup_convergence (resolve : String → Option String) (userList : List User)
    (usersFilenames : List String) (fs : Fs)
    (hlabels : userList.Pairwise (fun a b => a.label ≠ b.label))
    (hdefault : ∀ a ∈ userList, ∀ b ∈ userList,
      a.isDefault = true → b.isDefault = true → a = b)
    (hres : ∀ u ∈ userList, (resolve u.url).isSome = true)
    (hclean : ∀ u ∈ userList, u.isTemporary = false →
      isMountableB (fs (PATHS.USER u.label)) = true)
    (hcleanD : ∀ u ∈ userList, u.isDefault = true →
      isMountableB (fs PATHS.DEFAULT_USER) = true) :
    (∀ u ∈ userList, u.isTemporary = false →
      ∃ k, resolve u.url = some k ∧
        setupStructure resolve userList usersFilenames fs (PATHS.USER u.label) =
          some (Node.mount k)) ∧
    (∀ u ∈ userList, u.isDefault = true →
      ∃ k, resolve u.url = some k ∧
        setupStructure resolve userList usersFilenames fs PATHS.DEFAULT_USER =
          some (Node.mount k)) := by
  constructor
  · intro u hu ht
    obtain ⟨k, hk⟩ := Option.isSome_iff_exists.mp (hres u hu)
    refine ⟨k, hk, ?_⟩
    unfold setupStructure
    have hp : ∀ name, PATHS.USER u.label = PATHS.USER name →
        (userList.find? (fun v => v.label == name)).isSome = true := by
      intro name hname
      rw [← path_user_inj hname]
      exact find?_label_isSome userList u hu
    rw [sweepPhase_frame userList (PATHS.USER u.label) hp usersFilenames]
    apply usersMountPhase_sets_label resolve userList (dirsPhase fs) u k hlabels hu ht hk
    rw [dirsPhase_user_frame]
    exact hclean u hu ht
  · intro u hu hd
    obtain ⟨k, hk⟩ := Option.isSome_iff_exists.mp (hres u hu)
    refine ⟨k, hk, ?_⟩
    unfold setupStructure
    have hp : ∀ name, PATHS.DEFAULT_USER = PATHS.USER name →
        (userList.find? (fun v => v.label == name)).isSome = true := by
      intro name hname
      exact absurd hname (default_ne_user name)
    rw [sweepPhase_frame userList PATHS.DEFAULT_USER hp usersFilenames]
    apply usersMountPhase_sets_default resolve userList (dirsPhase fs) u k hlabels hdefault hu hd hk
    rw [dirsPhase_default_frame]
    exact hcleanD u hu hd

/-- C1 witness: one default non-temporary owner on an empty archive; after the
enforcement her owners-root path is bound to her resolved key. -/
theorem setup_convergence_witness :
    setupStructure resolveKA userListC [] fsEmpty (PATHS.USER "alice") =
      some (Node.mount "ka") := by
  have h := (setup_convergence resolveKA userListC [] fsEmpty
    (by decide) (by decide) (by decide) (by decide) (by decide)).1
    uAlice (by decide) rfl
  obtain ⟨k, hk, heq⟩ := h
  have hk' : "ka" = k := Option.some.inj hk
  rw [← hk'] at heq
  exact heq

/-- C2 counterexample: the sweep matches entry names against every owner's
label, temporary owners included.  With a single temporary owner labeled
`tmp` and a mount at the owners-root entry `tmp` — an entry matching no
NON-temporary owner's label — the sweep leaves the mount attached, contrary
to the claim that such an entry is detached. -/
theorem sweep_spares_temporary_label :
    uTmp.isTemporary = true ∧
    fsTmpMount (PATHS.USER "tmp") = some (Node.mount "k") ∧
    sweepPhase [uTmp] fsTmpMount ["tmp"] (PATHS.USER "tmp") = some (Node.mount "k") := by
  refine ⟨rfl, by decide, by decide⟩

/-- C2 (amended): during the sweep, every listed entry whose name matches no
current owner's label — temporary owners included — holds no mount afterwards
if probing finds one, and every entry whose name matches some owner's label
(in particular every non-temporary owner's label) is left untouched. -/
theorem sweep_prunes_amended (userList : List User) (fns : List String) (fs : Fs) :
    (∀ name ∈ fns, (userList.find? (fun u => u.label == name)).isNone = true →
      ∀ k, sweepPhase userList fs fns (PATHS.USER name) ≠ some (Node.mount k)) ∧
    (∀ name, (userList.find? (fun u => u.label == name)).isSome = true →
      sweepPhase userList fs fns (PATHS.USER name) = fs (PATHS.USER name)) := by
  constructor
  · intro name hmem hfind k
    exact sweepPhase_processes userList name hfind fns fs hmem k
  · intro name hfind
    apply sweepPhase_frame
    intro name' hname'
    rw [← path_user_inj hname']
    exact hfind

/-- C2 witness: an orphan mount at entry `ghost` with an empty owner list is
gone after the sweep. -/
theorem sweep_prunes_amended_witness :
    sweepPhase [] fsGhostMount ["ghost"] (PATHS.USER "ghost") ≠ some (Node.mount "kg") :=
  (sweep_prunes_amended [] ["ghost"] fsGhostMount).1 "ghost" (by decide) (by decide) "kg"

/-- C4: a call to `ensureMount` on a path holding a mount bound to key `A`,
with the desired address resolving to key `B`: if `A ≠ B` it issues exactly an
unmount followed by a mount (in that order), leaving the path bound to `B` and
not to `A`; if `A = B` it issues no operation and leaves the state unchanged. -/
theorem ensureMount_reassign_or_noop (resolve : String → Option String) (fs : Fs)
    (p : FsPath) (url A B : String)
    (hst : stat fs p = some (Node.mount A)) (hres : resolve url = some B) :
    (A ≠ B →
      ensureMount resolve fs p url =
        (Fs.setNode (Fs.removeNode fs p) p (Node.mount B),
          [Op.unmount p, Op.mount p B]) ∧
      (ensureMount resolve fs p url).1 p = some (Node.mount B) ∧
      (ensureMount resolve fs p url).1 p ≠ some (Node.mount A)) ∧
    (A = B → ensureMount resolve fs p url = (fs, [])) := by
  constructor
  · intro hAB
    have hfull : ensureMount resolve fs p url =
        (Fs.setNode (Fs.removeNode fs p) p (Node.mount B),
          [Op.unmount p, Op.mount p B]) := by
      unfold ensureMount
      rw [hres, hst]
      simp [hAB]
    refine ⟨hfull, ?_, ?_⟩
    · rw [hfull]; simp [Fs.setNode]
    · rw [hfull]
      simp only [Fs.setNode, if_pos rfl]
      intro h
      have h2 : Node.mount B = Node.mount A := Option.some.inj h
      have h3 : B = A := by injection h2
      exact hAB h3.symm
  · intro hAB
    unfold ensureMount
    rw [hres, hst]
    simp [hAB]

/-- C4 witness: reassignment at a path bound to `a` when the address resolves
to `b`. -/
theorem ensureMount_reassign_or_noop_witness :
    (ensureMount (fun _ => some "b") fsMountA ["x"] "u").1 ["x"] =
      some (Node.mount "b") :=
  ((ensureMount_reassign_or_noop (fun _ => some "b") fsMountA ["x"] "u" "a" "b"
    rfl rfl).1 (by decide)).2.1

/-- C5: on a path occupied by a node of the wrong kind, `ensureDir` (node not
a directory) and `ensureMount` (node not a mount) return the state unchanged
and issue no operation — the conflict is only logged. -/
theorem wrong_kind_untouched (resolve : String → Option String) (fs : Fs)
    (p : FsPath) (url : String) (n : Node) (hst : stat fs p = some n) :
    (n.isDirectoryB = false → ensureDir fs p = (fs, [])) ∧
    (n.isMountB = false → ensureMount resolve fs p url = (fs, [])) := by
  constructor
  · intro hn
    unfold ensureDir
    rw [hst]
    cases n with
    | directory => simp [Node.isDirectoryB] at hn
    | plain => rfl
    | mount k => rfl
  · intro hn
    unfold ensureMount
    cases hr : resolve url with
    | none => rfl
    | some key =>
      rw [hst]
      cases n with
      | mount k => simp [Node.isMountB] at hn
      | plain => rfl
      | directory => rfl

/-- C5 witness: a plain file at `x` survives both ensurers untouched, with no
operation issued. -/
theorem wrong_kind_untouched_witness :
    ensureDir fsPlainX ["x"] = (fsPlainX, []) ∧
    ensureMount resolveKA fsPlainX ["x"] "u" = (fsPlainX, []) := by
  have h := wrong_kind_untouched resolveKA fsPlainX ["x"] "u" Node.plain rfl
  exact ⟨h.1 rfl, h.2 rfl⟩

/-- C6: name allocation — on an empty library, title `My Post!` yields
`my-post`; with `my-post` taken it yields `my-post-2`; with both taken,
`my-post-3`; an empty or whitespace-only title falls back to base `untitled`.
In general the candidate at counter 1 is the bare slug, the candidate at any
counter `i ≥ 2` is `slug-i` (so `slug-1` is never generated), and the first
candidate whose path is absent is the one returned. -/
theorem name_allocation :
    getAvailableName fsEmpty PATHS.LIBRARY "My Post!" = Except.ok "my-post" ∧
    getAvailableName fsLib1 PATHS.LIBRARY "My Post!" = Except.ok "my-post-2" ∧
    getAvailableName fsLib2 PATHS.LIBRARY "My Post!" = Except.ok "my-post-3" ∧
    getAvailableName fsEmpty PATHS.LIBRARY "" = Except.ok "untitled" ∧
    getAvailableName fsEmpty PATHS.LIBRARY "   " = Except.ok "untitled" ∧
    (∀ b, candidateName b 1 = b) ∧
    (∀ b i, 2 ≤ i → candidateName b i = b ++ "-" ++ toString i) ∧
    (∀ (st : Fs) (c : FsPath) (title : String) (j : Nat), 1 ≤ j → j < 1000000000 →
      (∀ t, 1 ≤ t → t < j →
        (st (c ++ [candidateName (baseName title) t])).isSome = true) →
      st (c ++ [candidateName (baseName title) j]) = none →
      getAvailableName st c title = Except.ok (candidateName (baseName title) j)) := by
  refine ⟨rfl, rfl, rfl, rfl, rfl, ?_, ?_, ?_⟩
  · intro b; rfl
  · intro b i hi
    rw [candidateName, if_neg (by omega)]
  · exact getAvailableName_first_absent

/-- C6 witness: the general first-absent clause applied at counter 2 over the
library with `my-post` taken. -/
theorem name_allocation_witness :
    getAvailableName fsLib1 PATHS.LIBRARY "My Post!" =
      Except.ok (candidateName (baseName "My Post!") 2) := by
  apply name_allocation.2.2.2.2.2.2.2 fsLib1 PATHS.LIBRARY "My Post!" 2
    (by omega) (by omega)
  · intro t h1 h2
    have ht : t = 1 := by omega
    subst ht
    rfl
  · rfl

/-- C7: the allocator searches the bounded candidate space of counters
1 through 999999999; if every candidate path in that space is occupied, it
raises an error, and the error propagates uncaught through `addToLibrary` to
its caller. -/
theorem allocation_exhaustion (st : Fs) (resolve : String → Option String)
    (url title : String)
    (hocc : ∀ i, 1 ≤ i → i < 1000000000 →
      (st (PATHS.LIBRARY ++ [candidateName (baseName title) i])).isSome = true) :
    getAvailableName st PATHS.LIBRARY title =
      Except.error ("Unable to find an available name for " ++ title) ∧
    addToLibrary resolve st url title =
      Except.error ("Unable to find an available name for " ++ title) := by
  have hname : getAvailableName st PATHS.LIBRARY title =
      Except.error ("Unable to find an available name for " ++ title) := by
    unfold getAvailableName
    rw [availLoop_exhaust st PATHS.LIBRARY (baseName title) 999999999 1
      (fun t ht1 ht2 => hocc t ht1 (by omega))]
  refine ⟨hname, ?_⟩
  unfold addToLibrary
  rw [hname]

/-- C7 witness: a store with every path occupied exhausts the allocator and
the error reaches `addToLibrary`'s caller. -/
theorem allocation_exhaustion_witness :
    getAvailableName fsAllPlain PATHS.LIBRARY "x" =
      Except.error ("Unable to find an available name for " ++ "x") ∧
    addToLibrary resolveKA fsAllPlain "u" "x" =
      Except.error ("Unable to find an available name for " ++ "x") :=
  allocation_exhaustion fsAllPlain resolveKA "u" "x" (fun _ _ _ => rfl)

/-- C8 counterexample: a failing profile load (`db.get`) happens before the
`try` block of `setup` and its error propagates to the caller, contrary to
the claim that every error anywhere in the setup sequence is caught. -/
theorem setup_prephase_error :
    setup (Except.error "db error") (Except.ok "dat://root") (Except.ok ())
      (fun _ => Except.ok ()) (Except.ok []) ⟨Except.ok [], fun _ => false⟩
      resolveKA fsEmpty = Except.error "db error" := rfl

/-- C8 (amended): only errors raised inside the root-structure enforcement
(the `try` block: directory ensuring, mounting, the stale sweep with its
readdir and direct unmounts) are caught, logged and swallowed, so `setup`
completes normally whatever the sweep oracle does; errors from each of the
pre-`try` steps — the profile load, root-archive creation, persisting its
url, loading the root archive, and `users.setup()` — are not caught and
propagate to the caller. -/
theorem setup_error_scope (p : Profile) (cu : String) (ul : List User)
    (oracle : SweepOracle) (resolve : String → Option String) (fs : Fs)
    (g : String → Except String Unit) (dbr : Except String Unit)
    (us : Except String (List User)) (e : String) :
    setup (Except.ok p) (Except.ok cu) (Except.ok ()) (fun _ => Except.ok ())
      (Except.ok ul) oracle resolve fs = Except.ok () ∧
    setup (Except.error e) (Except.ok cu) (Except.ok ()) g (Except.ok ul)
      oracle resolve fs = Except.error e ∧
    setup (Except.ok p) (Except.ok cu) (Except.ok ()) (fun _ => Except.ok ())
      (Except.error e) oracle resolve fs = Except.error e ∧
    setup (Except.ok ⟨none⟩) (Except.error e) dbr g us
      oracle resolve fs = Except.error e ∧
    setup (Except.ok ⟨none⟩) (Except.ok cu) (Except.error e) g us
      oracle resolve fs = Except.error e ∧
    setup (Except.ok p) (Except.ok cu) (Except.ok ()) (fun _ => Except.error e)
      us oracle resolve fs = Except.error e := by
  have hcatch : ∀ r : Except String Fs,
      (match r with
       | Except.ok _ => (Except.ok () : Except String Unit)
       | Except.error _ => Except.ok ()) = Except.ok () := fun r => by
    cases r <;> rfl
  refine ⟨?_, rfl, ?_, rfl, rfl, ?_⟩
  · obtain ⟨purl⟩ := p
    cases purl with
    | none => exact hcatch _
    | some u => exact hcatch _
  · obtain ⟨purl⟩ := p
    cases purl with
    | none => rfl
    | some u => rfl
  · obtain ⟨purl⟩ := p
    cases purl with
    | none => rfl
    | some u => rfl

/-- C9 counterexample: `addToLibrary` allocates `my-post` for the new entry
but its successful result carries only the new state and `()` — the
allocated name is not returned to the caller. -/
theorem addToLibrary_returns_unit :
    getAvailableName fsEmpty PATHS.LIBRARY "My Post!" = Except.ok "my-post" ∧
    addToLibrary resolveKA fsEmpty "dat://a" "My Post!" =
      Except.ok ((ensureMount resolveKA fsEmpty
        (PATHS.LIBRARY ++ ["my-post"]) "dat://a").1, ()) :=
  ⟨rfl, rfl⟩

/-- C9 (amended): `addToLibrary` allocates a collision-free name under the
library root and mounts the address there (the allocated path was absent, so
the mount is attached), but returns no value (`void` in the source): the
payload of a successful run is `()`, not the allocated name. -/
theorem addToLibrary_amended (resolve : String → Option String) (st : Fs)
    (url title key name : String) (hres : resolve url = some key)
    (hname : getAvailableName st PATHS.LIBRARY title = Except.ok name) :
    addToLibrary resolve st url title =
      Except.ok ((ensureMount resolve st (PATHS.LIBRARY ++ [name]) url).1, ()) ∧
    (ensureMount resolve st (PATHS.LIBRARY ++ [name]) url).1
      (PATHS.LIBRARY ++ [name]) = some (Node.mount key) := by
  constructor
  · unfold addToLibrary
    rw [hname]
  · have habs : st (PATHS.LIBRARY ++ [name]) = none :=
      getAvailableName_ok_absent st PATHS.LIBRARY title name hname
    refine ensureMount_sets resolve st _ url key hres ?_
    unfold stat
    rw [habs]
    rfl

/-- C9 witness for the amended claim: a concrete allocation and mount. -/
theorem addToLibrary_amended_witness :
    addToLibrary resolveKA fsEmpty "dat://a" "My Post!" =
      Except.ok ((ensureMount resolveKA fsEmpty
        (PATHS.LIBRARY ++ ["my-post"]) "dat://a").1, ()) ∧
    (ensureMount resolveKA fsEmpty (PATHS.LIBRARY ++ ["my-post"]) "dat://a").1
      (PATHS.LIBRARY ++ ["my-post"]) = some (Node.mount "ka") :=
  addToLibrary_amended resolveKA fsEmpty "dat://a" "My Post!" "ka" "my-post" rfl rfl

/-- C10: `removeUser` unmounts only the user's own labeled path: every other
path — in particular the default-alias path, even when the removed user is
flagged default — is unchanged, an alias mount stays bound to the removed
user's key, and every operation issued targets the labeled path. -/
theorem removeUser_only_label_path (fs : Fs) (u : User) (p : FsPath)
    (hp : p ≠ PATHS.USER u.label) :
    (removeUser fs u).1 p = fs p ∧
    (removeUser fs u).1 PATHS.DEFAULT_USER = fs PATHS.DEFAULT_USER ∧
    (∀ k, fs PATHS.DEFAULT_USER = some (Node.mount k) →
      (removeUser fs u).1 PATHS.DEFAULT_USER = some (Node.mount k)) ∧
    (∀ op ∈ (removeUser fs u).2, op = Op.unmount (PATHS.USER u.label)) := by
  have hframe : ∀ q, q ≠ PATHS.USER u.label → (removeUser fs u).1 q = fs q := by
    intro q hq
    unfold removeUser ensureUnmount
    cases hst : stat fs (PATHS.USER u.label) with
    | none => rfl
    | some n =>
      cases n with
      | mount k => simp [Fs.removeNode, hq]
      | plain => rfl
      | directory => rfl
  have hdef := hframe PATHS.DEFAULT_USER (default_ne_user u.label)
  refine ⟨hframe p hp, hdef, fun k hk => by rw [hdef]; exact hk, ?_⟩
  unfold removeUser ensureUnmount
  cases hst : stat fs (PATHS.USER u.label) with
  | none => simp
  | some n => cases n <;> simp

/-- C10 witness: removing the default user `alice` leaves the alias mount at
her key. -/
theorem removeUser_only_label_path_witness :
    (removeUser fsPub uAlice).1 PATHS.DEFAULT_USER = some (Node.mount "ka") :=
  (removeUser_only_label_path fsPub uAlice PATHS.DEFAULT_USER
    (by decide)).2.2.1 "ka" (by decide)

/-- C3 counterexample: the default-alias `ensureMount` call is guarded only
by the default flag, not by non-temporariness — a temporary owner flagged
default still triggers `ensureMount(PATHS.DEFAULT_USER, url)`, contrary to
the claim that no mount call is issued for a temporary owner. -/
theorem default_alias_mounted_for_temporary :
    uTmpDefault.isTemporary = true ∧
    (PATHS.DEFAULT_USER, uTmpDefault.url) ∈
      (usersMountPhase resolveKA fsEmpty [uTmpDefault]).2 :=
  ⟨rfl, by decide⟩

/-- C3 (amended): during setup's user loop, `ensureMount(ownerPath(label),
address)` is called exactly for the non-temporary owners, and
`ensureMount(defaultOwnerAliasPath, address)` is called exactly for the
owners flagged default — whether or not they are temporary. -/
theorem user_mount_calls_amended (resolve : String → Option String)
    (p : FsPath) (url : String) :
    ∀ (l : List User) (fs : Fs),
      ((p, url) ∈ (usersMountPhase resolve fs l).2 ↔
        (∃ u, u ∈ l ∧ u.isTemporary = false ∧ p = PATHS.USER u.label ∧ url = u.url) ∨
        (∃ u, u ∈ l ∧ u.isDefault = true ∧ p = PATHS.DEFAULT_USER ∧ url = u.url)) := by
  intro l fs
  rw [usersMountPhase_calls, List.mem_flatMap]
  constructor
  · rintro ⟨u, hu, hmem⟩
    rw [List.mem_append] at hmem
    rcases hmem with hmem | hmem
    · right
      refine ⟨u, hu, ?_⟩
      by_cases hd : u.isDefault
      · simp [hd] at hmem
        exact ⟨hd, hmem.1, hmem.2⟩
      · simp [hd] at hmem
    · left
      refine ⟨u, hu, ?_⟩
      by_cases ht : u.isTemporary
      · simp [ht] at hmem
      · simp at ht
        simp [ht] at hmem
        exact ⟨ht, hmem.1, hmem.2⟩
  · rintro (⟨u, hu, hT, hp', hurl⟩ | ⟨u, hu, hD, hp', hurl⟩)
    · exact ⟨u, hu, by simp [hT, hp', hurl]⟩
    · exact ⟨u, hu, by simp [hD, hp', hurl]⟩
